import Mathlib

/-!
Verification of the automation-hub email ingestion and processor-dispatch
pipeline.  The Go sources are shallowly embedded: Go strings become Lean
`String`s manipulated through their character lists, `strings.Contains` /
`strings.Index` become executable functions on character lists, the two
hard-coded regular expressions of the Perplexity extraction strategy are
implemented as executable leftmost-match scanners, and the configurable
regular-expression machinery (whose pattern source text is data) is
abstracted by explicit function parameters.  Stateful loops (message
dispatch, IMAP search, Telegram retry) become pure functions returning an
explicit trace of the effects they would issue.
-/

namespace AutomationHub

/-! ## Go string primitives (`strings.Index`, `strings.Contains`, `strings.ToLower`) -/

/-- Index of the first occurrence of `needle` in `l`, as `strings.Index` reports
it (but `none` in place of `-1`). -/
def listIndexOfSub (needle : List Char) : List Char → Option Nat
  | [] => if needle.isEmpty then some 0 else none
  | c :: rest =>
    if needle.isPrefixOf (c :: rest) then some 0
    else (listIndexOfSub needle rest).map (fun i => i + 1)

/-- `strings.Index(s, substr)` with `none` standing for `-1`. -/
def goIndex (s substr : String) : Option Nat :=
  listIndexOfSub substr.toList s.toList

/-- `strings.Contains(s, substr)`. -/
def goContains (s substr : String) : Bool :=
  (goIndex s substr).isSome

/-- `strings.ToLower(s)` (character-wise lowering; all strings involved in the
lowered comparisons of the source are ASCII). -/
def goToLower (s : String) : String :=
  String.mk (s.toList.map Char.toLower)

/-! ## Data model (`internal/models`, `internal/config`) -/

/-- `models.Email`. -/
structure Email where
  ID : String
  Subject : String
  From : String
  TextPlain : String
deriving Repr, DecidableEq

/-- `config.ServiceProcessorConfig`. -/
structure ServiceProcessorConfig where
  EmailFrom : String
  EmailSubject : List String
  TelegramChatID : String
  TelegramMessage : String
  CodePattern : String
deriving Repr, DecidableEq

/-! ## Pattern resolution (`NewGenericEmailProcessor`, torrent.go lines 271-307) -/

/-- The compiled matcher a processor ends up holding: either a successfully
compiled custom pattern, or one of the three entries of the built-in
`defaultPatterns` map. -/
inductive ResolvedPattern where
  | custom (src : String)
  | cloudflareDefault
  | perplexityDefault
  | genericDefault
deriving Repr, DecidableEq

/-- Lookup in the `defaultPatterns` map (keys `"cloudflare"`, `"perplexity"`,
`"default"`). -/
def defaultPatternFor (key : String) : Option ResolvedPattern :=
  if key = "cloudflare" then some ResolvedPattern.cloudflareDefault
  else if key = "perplexity" then some ResolvedPattern.perplexityDefault
  else if key = "default" then some ResolvedPattern.genericDefault
  else none

/-- The pattern-selection logic of `NewGenericEmailProcessor`: a non-empty
custom pattern that compiles wins; otherwise the `defaultPatterns` entry for
the lowercased name; otherwise the `"default"` entry.  Whether a pattern
source compiles is abstracted by the `compiles` parameter. -/
def resolveCodePattern (compiles : String → Bool) (name : String)
    (serviceConfig : ServiceProcessorConfig) : ResolvedPattern :=
  let fromCustom : Option ResolvedPattern :=
    if serviceConfig.CodePattern ≠ "" then
      if compiles serviceConfig.CodePattern then
        some (ResolvedPattern.custom serviceConfig.CodePattern)
      else none
    else none
  match fromCustom with
  | some p => p
  | none =>
    match defaultPatternFor (goToLower name) with
    | some p => p
    | none => ResolvedPattern.genericDefault

/-- `processor.GenericEmailProcessor` (the fields the pipeline reads). -/
structure GenericEmailProcessor where
  name : String
  config : ServiceProcessorConfig
  codePattern : ResolvedPattern
deriving Repr, DecidableEq

/-- `processor.NewGenericEmailProcessor`. -/
def NewGenericEmailProcessor (compiles : String → Bool) (name : String)
    (serviceConfig : ServiceProcessorConfig) : GenericEmailProcessor :=
  { name := name
    config := serviceConfig
    codePattern := resolveCodePattern compiles name serviceConfig }

/-! ## `ShouldProcess` (torrent.go lines 309-323, generic.go lines 63-77) -/

/-- The subject loop of `ShouldProcess`: `true` at the first configured
subject substring contained in the message subject. -/
def subjectLoop : List String → String → Bool
  | [], _ => false
  | s :: rest, subject =>
    if goContains subject s then true else subjectLoop rest subject

/-- `GenericEmailProcessor.ShouldProcess`. -/
def GenericEmailProcessor.ShouldProcess (p : GenericEmailProcessor)
    (email : Email) : Bool :=
  if !(goContains email.From p.config.EmailFrom) then false
  else subjectLoop p.config.EmailSubject email.Subject

/-! ## Bridging lemmas for the string primitives -/

theorem listIndexOfSub_isSome_iff (needle l : List Char) :
    (listIndexOfSub needle l).isSome = true ↔ needle <:+: l := by
  induction l with
  | nil =>
    simp only [listIndexOfSub, List.infix_nil]
    by_cases h : needle.isEmpty
    · simp [h, List.isEmpty_iff.mp h]
    · simp only [h, if_false, Option.isSome_none, Bool.false_eq_true, false_iff]
      intro hc
      exact h (by simp [hc])
  | cons c rest ih =>
    simp only [listIndexOfSub]
    cases hp : needle.isPrefixOf (c :: rest) with
    | true =>
      rw [if_pos rfl]
      simp only [Option.isSome_some, true_iff, eq_self_iff_true]
      exact List.IsPrefix.isInfix ( List.isPrefixOf_iff_prefix.mp hp)
    | false =>
      rw [if_neg (by simp)]
      have hmap : (Option.map (fun i => i + 1) (listIndexOfSub needle rest)).isSome
          = (listIndexOfSub needle rest).isSome := by
        cases listIndexOfSub needle rest <;> rfl
      rw [hmap, ih, List.infix_cons_iff]
      constructor
      · exact Or.inr
      · rintro (hpre | hi)
        · rw [← List.isPrefixOf_iff_prefix] at hpre
          rw [hp] at hpre
          exact absurd hpre (by simp)
        · exact hi

theorem goContains_iff (s substr : String) :
    goContains s substr = true ↔ substr.toList <:+: s.toList := by
  simpa [goContains, goIndex] using listIndexOfSub_isSome_iff substr.toList s.toList

theorem subjectLoop_iff (subjects : List String) (subject : String) :
    subjectLoop subjects subject = true ↔
      ∃ s ∈ subjects, s.toList <:+: subject.toList := by
  induction subjects with
  | nil => simp [subjectLoop]
  | cons s rest ih =>
    simp only [subjectLoop]
    cases h : goContains subject s with
    | true =>
      rw [if_pos rfl]
      simp only [true_iff, eq_self_iff_true]
      exact ⟨s, List.mem_cons_self s rest, (goContains_iff subject s).mp h⟩
    | false =>
      rw [if_neg (by simp), ih]
      constructor
      · rintro ⟨t, ht, hinf⟩
        exact ⟨t, List.mem_cons_of_mem s ht, hinf⟩
      · rintro ⟨t, ht, hinf⟩
        rcases List.mem_cons.mp ht with rfl | hmem
        · rw [← goContains_iff subject t, h] at hinf
          exact absurd hinf (by simp)
        · exact ⟨t, hmem, hinf⟩

/-! ## Claim C1 -/

/-- C1: `ShouldProcess` returns `true` exactly when the message sender contains
the configured sender substring (case-sensitively) and at least one configured
subject substring is contained (case-sensitively) in the message subject. -/
theorem shouldProcess_iff (p : GenericEmailProcessor) (email : Email) :
    p.ShouldProcess email = true ↔
      (p.config.EmailFrom.toList <:+: email.From.toList ∧
       ∃ s ∈ p.config.EmailSubject, s.toList <:+: email.Subject.toList) := by
  unfold GenericEmailProcessor.ShouldProcess
  cases h : goContains email.From p.config.EmailFrom with
  | true =>
    rw [if_neg (by simp), subjectLoop_iff]
    have hfrom := (goContains_iff email.From p.config.EmailFrom).mp h
    exact ⟨fun hs => ⟨hfrom, hs⟩, fun hc => hc.2⟩
  | false =>
    rw [if_pos (by simp)]
    constructor
    · intro hfalse
      exact absurd hfalse (by simp)
    · rintro ⟨hfrom, -⟩
      rw [← goContains_iff email.From p.config.EmailFrom, h] at hfrom
      exact absurd hfrom (by simp)

/-! ## Claim C10 -/

/-- C10: a processor whose configured subject list is empty matches no message
at all, even one whose sender contains the configured sender substring. -/
theorem shouldProcess_empty_subjects (p : GenericEmailProcessor)
    (h : p.config.EmailSubject = []) (email : Email) :
    p.ShouldProcess email = false := by
  unfold GenericEmailProcessor.ShouldProcess
  rw [h]
  by_cases hf : goContains email.From p.config.EmailFrom
  · simp [hf, subjectLoop]
  · simp [hf]

/-- Witness for C10 at a concrete processor whose sender filter does occur in
the message sender but whose subject list is empty. -/
theorem shouldProcess_empty_subjects_witness :
    (NewGenericEmailProcessor (fun _ => true) "cloudflare"
        ⟨"notify.cloudflare.com", [], "1", "code %s", ""⟩).ShouldProcess
      ⟨"id1", "yourdomain.com code", "noreply@notify.cloudflare.com", "body"⟩
      = false :=
  shouldProcess_empty_subjects _ rfl _

/-! ## Claim C4 -/

/-- C4: pattern resolution follows custom > named default > generic.  A
non-empty custom pattern that compiles is always used; an empty or
non-compiling custom pattern yields the named default for the lowercased
processor name when one exists and the generic default otherwise (the map key
`"default"` also denotes the generic default); the construction is total (no
run-time error) and the resolved pattern is stored once on the constructed
processor. -/
theorem resolveCodePattern_precedence (compiles : String → Bool) (name : String)
    (serviceConfig : ServiceProcessorConfig) :
    (serviceConfig.CodePattern ≠ "" → compiles serviceConfig.CodePattern = true →
      resolveCodePattern compiles name serviceConfig
        = ResolvedPattern.custom serviceConfig.CodePattern) ∧
    ((serviceConfig.CodePattern = "" ∨ compiles serviceConfig.CodePattern = false) →
      resolveCodePattern compiles name serviceConfig
        = (if goToLower name = "cloudflare" then ResolvedPattern.cloudflareDefault
           else if goToLower name = "perplexity" then ResolvedPattern.perplexityDefault
           else ResolvedPattern.genericDefault)) ∧
    (NewGenericEmailProcessor compiles name serviceConfig).codePattern
      = resolveCodePattern compiles name serviceConfig := by
  refine ⟨?_, ?_, rfl⟩
  · intro hne hok
    unfold resolveCodePattern
    simp only [hne, hok, ne_eq, not_false_iff, if_true]
  · intro hbad
    unfold resolveCodePattern defaultPatternFor
    have hnone :
        (if serviceConfig.CodePattern ≠ "" then
          if compiles serviceConfig.CodePattern then
            some (ResolvedPattern.custom serviceConfig.CodePattern)
          else none
        else none) = none := by
      rcases hbad with hempty | hfail
      · simp [hempty]
      · by_cases hne : serviceConfig.CodePattern = ""
        · simp [hne]
        · simp [hne, hfail]
    rw [hnone]
    by_cases hc : goToLower name = "cloudflare"
    · simp [hc]
    · by_cases hper : goToLower name = "perplexity"
      · simp [hc, hper]
      · by_cases hd : goToLower name = "default"
        · simp [hc, hper, hd]
        · simp [hc, hper, hd]

/-- Witness for C4: a compiling custom pattern is used as-is, and the same
configuration with a non-compiling custom pattern falls back to the named
default for `"Perplexity"`. -/
theorem resolveCodePattern_precedence_witness :
    resolveCodePattern (fun s => s = "ok") "Perplexity"
        ⟨"f", [], "1", "m %s", "ok"⟩ = ResolvedPattern.custom "ok" ∧
    resolveCodePattern (fun s => s = "ok") "Perplexity"
        ⟨"f", [], "1", "m %s", "bad"⟩ = ResolvedPattern.perplexityDefault := by
  constructor
  · exact (resolveCodePattern_precedence (fun s => s = "ok") "Perplexity"
      ⟨"f", [], "1", "m %s", "ok"⟩).1 (by decide) (by decide)
  · exact ((resolveCodePattern_precedence (fun s => s = "ok") "Perplexity"
      ⟨"f", [], "1", "m %s", "bad"⟩).2.1 (Or.inr (by decide))).trans (by decide)

/-! ## Code extraction (torrent.go lines 354-443) -/

/-- `"Not found"`, the extraction-miss sentinel (`processor.NotFoundCode`). -/
def NotFoundCode : String := "Not found"

/-- Membership in the word-character class of RE2 word boundaries
(`[0-9A-Za-z_]`). -/
def isWordChar (c : Char) : Bool := c.isAlphanum || c = '_'

/-- The trailing word-boundary test for a match ending right before `l`. -/
def boundaryAfterOk : List Char → Bool
  | [] => true
  | c :: _ => !isWordChar c

/-- Attempt of the anchored pattern of 5 or 6 digits at the head of `l`
(greedy: six digits preferred), including the trailing word boundary. -/
def num56At (l : List Char) : Option (List Char) :=
  let six := l.take 6
  if six.length = 6 && six.all Char.isDigit && boundaryAfterOk (l.drop 6) then
    some six
  else
    let five := l.take 5
    if five.length = 5 && five.all Char.isDigit && boundaryAfterOk (l.drop 5) then
      some five
    else none

/-- Attempt of the hyphenated alphanumeric pattern
(alphanumeric run, hyphen, alphanumeric run, trailing word boundary) at the
head of `l`. -/
def hyphAt (l : List Char) : Option (List Char) :=
  let a := l.takeWhile Char.isAlphanum
  if a.isEmpty then none
  else
    match l.drop a.length with
    | '-' :: rest =>
      let b := rest.takeWhile Char.isAlphanum
      if b.isEmpty then none
      else if boundaryAfterOk (rest.drop b.length) then some (a ++ '-' :: b)
      else none
    | _ => none

/-- Leftmost match of an at-position matcher that demands a leading word
boundary: positions are scanned left to right, carrying the previous
character to decide the boundary. -/
def scanLeftmost (tryAt : List Char → Option (List Char)) :
    Option Char → List Char → Option (List Char)
  | _, [] => none
  | prev, c :: rest =>
    let boundaryOk := match prev with
      | none => true
      | some p => !isWordChar p
    if boundaryOk then
      match tryAt (c :: rest) with
      | some m => some m
      | none => scanLeftmost tryAt (some c) rest
    else scanLeftmost tryAt (some c) rest

/-- First match of the numeric-token pattern of `extractPerplexityCode`
(5 to 6 digits between word boundaries). -/
def findNumericCode (s : String) : Option String :=
  (scanLeftmost num56At none s.toList).map String.mk

/-- First match of the hyphenated-token pattern of `extractPerplexityCode`. -/
def findHyphenCode (s : String) : Option String :=
  (scanLeftmost hyphAt none s.toList).map String.mk

/-- The marker variants of `extractPerplexityCode`, in source order. -/
def perplexityMarkers : List String := ["directly:", "directamente:"]

/-- The marker loop of `extractPerplexityCode`: for the first listed marker
found in the lowered body, the window is the original text after the first
occurrence of that marker. -/
def markerLoop : List String → String → String → Option String
  | [], _, _ => none
  | marker :: rest, text, lowerText =>
    match goIndex lowerText marker with
    | some idx => some (String.mk (text.toList.drop (idx + marker.length)))
    | none => markerLoop rest text lowerText

/-- The search window chosen by `extractPerplexityCode`, when any marker is
present. -/
def findMarkerWindow (text : String) : Option String :=
  markerLoop perplexityMarkers text (goToLower text)

/-- `GenericEmailProcessor.extractPerplexityCode`.  The application of the
processor's resolved (configuration-dependent) pattern is abstracted by the
`find` parameter; the two hard-coded candidate patterns are concrete. -/
def extractPerplexityCode (find : ResolvedPattern → String → Option String)
    (p : GenericEmailProcessor) (text : String) : String :=
  match findMarkerWindow text with
  | none => NotFoundCode
  | some searchText =>
    match findNumericCode searchText with
    | some code => code
    | none =>
      match findHyphenCode searchText with
      | some code => code
      | none =>
        match find p.codePattern searchText with
        | some code => code
        | none => NotFoundCode

/-- `GenericEmailProcessor.stripMIMEHeaders`. -/
def stripMIMEHeaders (text : String) : String :=
  match goIndex text "\n\n" with
  | some headerEnd => String.mk (text.toList.drop (headerEnd + 2))
  | none =>
    match goIndex text "\r\n\r\n" with
    | some headerEnd => String.mk (text.toList.drop (headerEnd + 4))
    | none => text

/-- `FindStringSubmatch` on the resolved pattern followed by the
found / not-found branch of `extractCode`. -/
def matchResult (find : ResolvedPattern → String → Option String)
    (pat : ResolvedPattern) (body : String) : String :=
  match find pat body with
  | some m => m
  | none => NotFoundCode

/-- `GenericEmailProcessor.extractCode`. -/
def extractCode (find : ResolvedPattern → String → Option String)
    (p : GenericEmailProcessor) (text : String) : String :=
  let body := if goToLower p.name = "cloudflare" then text
              else stripMIMEHeaders text
  if goToLower p.name = "perplexity" then extractPerplexityCode find p body
  else matchResult find p.codePattern body

/-! ## First-occurrence property of `goIndex` -/

theorem listIndexOfSub_first (needle : List Char) :
    ∀ (l : List Char) (i : Nat), listIndexOfSub needle l = some i →
      needle.isPrefixOf (l.drop i) = true ∧
      ∀ j, j < i → needle.isPrefixOf (l.drop j) = false := by
  intro l
  induction l with
  | nil =>
    intro i h
    simp only [listIndexOfSub] at h
    by_cases he : needle.isEmpty
    · rw [if_pos he] at h
      obtain rfl : i = 0 := by
        cases h
        rfl
      refine ⟨?_, fun j hj => absurd hj (by omega)⟩
      rw [List.isEmpty_iff.mp he]
      rfl
    · rw [if_neg he] at h
      cases h
  | cons c rest ih =>
    intro i h
    simp only [listIndexOfSub] at h
    cases hp : needle.isPrefixOf (c :: rest) with
    | true =>
      rw [if_pos (by rw [hp])] at h
      obtain rfl : i = 0 := by
        cases h
        rfl
      exact ⟨by simpa using hp, fun j hj => absurd hj (by omega)⟩
    | false =>
      rw [if_neg (by rw [hp]; simp)] at h
      cases hrest : listIndexOfSub needle rest with
      | none => rw [hrest] at h; cases h
      | some k =>
        rw [hrest] at h
        obtain rfl : i = k + 1 := by
          cases h
          rfl
        obtain ⟨hpre, hmin⟩ := ih k hrest
        refine ⟨by simpa using hpre, ?_⟩
        intro j hj
        cases j with
        | zero => simpa using hp
        | succ j' =>
          have : j' < k := by omega
          simpa using hmin j' this

/-! ## Claim C5 -/

/-- C5: when neither marker variant occurs (case-insensitively) in the body,
the Perplexity strategy returns the not-found sentinel no matter what the
candidate patterns would match — the result is independent of the resolved
fallback matcher `find`, and a token-shaped substring elsewhere in the body is
irrelevant. -/
theorem extractPerplexityCode_no_marker
    (find : ResolvedPattern → String → Option String)
    (p : GenericEmailProcessor) (text : String)
    (h : ∀ m ∈ perplexityMarkers, goContains (goToLower text) m = false) :
    extractPerplexityCode find p text = NotFoundCode := by
  have h1 : goIndex (goToLower text) "directly:" = none := by
    have hb := h "directly:" (by simp [perplexityMarkers])
    cases hg : goIndex (goToLower text) "directly:" with
    | none => rfl
    | some k => rw [goContains, hg] at hb; cases hb
  have h2 : goIndex (goToLower text) "directamente:" = none := by
    have hb := h "directamente:" (by simp [perplexityMarkers])
    cases hg : goIndex (goToLower text) "directamente:" with
    | none => rfl
    | some k => rw [goContains, hg] at hb; cases hb
  unfold extractPerplexityCode findMarkerWindow perplexityMarkers
  simp only [markerLoop, h1, h2]

/-- Witness for C5: a body holding a perfectly token-shaped substring but no
marker still yields the sentinel, even under a fallback matcher that would
match. -/
theorem extractPerplexityCode_no_marker_witness :
    extractPerplexityCode (fun _ body => findNumericCode body)
      ⟨"perplexity", ⟨"", [], "", "", ""⟩, ResolvedPattern.perplexityDefault⟩
      "Your code is 482913" = NotFoundCode :=
  extractPerplexityCode_no_marker _ _ _ (by decide)

/-! ## Claim C6 -/

/-- C6 counterexample: in a body containing both marker variants, the
extraction window does not follow the first marker occurrence in the text.
Here `"directamente:"` occurs first (index 0) and the first numeric-token
match after it is `"11111"`, yet the code searches after the later
`"directly:"` occurrence (index 20) and returns `"22222"`. -/
theorem extractPerplexityCode_first_occurrence_cex :
    extractPerplexityCode (fun _ _ => none)
        ⟨"perplexity", ⟨"", [], "", "", ""⟩, ResolvedPattern.perplexityDefault⟩
        "directamente: 11111 directly: 22222" = "22222" ∧
    goIndex (goToLower "directamente: 11111 directly: 22222") "directamente:"
      = some 0 ∧
    goIndex (goToLower "directamente: 11111 directly: 22222") "directly:"
      = some 20 ∧
    findNumericCode (String.mk
        (("directamente: 11111 directly: 22222" : String).toList.drop
          (0 + ("directamente:" : String).length))) = some "11111" ∧
    ("22222" : String) ≠ "11111" := by
  refine ⟨by decide, by decide, by decide, by decide, by decide⟩

/-- C6 (amended): the window is the text after the first occurrence of the
highest-priority marker variant present — `"directly:"` is consulted before
`"directamente:"` even when the latter occurs earlier in the text — and
`goIndex` locates genuinely the first occurrence of each variant; within the
window the candidate patterns are tried in the fixed order numeric 5-6 digit
token, hyphenated alphanumeric token, resolved fallback pattern, and the first
match of the first pattern that matches is returned, a later pattern being
consulted only when every earlier one has no match. -/
theorem extractPerplexityCode_priority_order
    (find : ResolvedPattern → String → Option String)
    (p : GenericEmailProcessor) (text : String) :
    (∀ m i, goIndex (goToLower text) m = some i →
       m.toList.isPrefixOf ((goToLower text).toList.drop i) = true ∧
       ∀ j, j < i → m.toList.isPrefixOf ((goToLower text).toList.drop j) = false) ∧
    (∀ i, goIndex (goToLower text) "directly:" = some i →
       findMarkerWindow text = some (String.mk (text.toList.drop (i + 9)))) ∧
    (goIndex (goToLower text) "directly:" = none →
     ∀ j, goIndex (goToLower text) "directamente:" = some j →
       findMarkerWindow text = some (String.mk (text.toList.drop (j + 13)))) ∧
    (goIndex (goToLower text) "directly:" = none →
     goIndex (goToLower text) "directamente:" = none →
       extractPerplexityCode find p text = NotFoundCode) ∧
    (∀ w, findMarkerWindow text = some w →
      (∀ c, findNumericCode w = some c →
         extractPerplexityCode find p text = c) ∧
      (findNumericCode w = none →
       ∀ c, findHyphenCode w = some c →
         extractPerplexityCode find p text = c) ∧
      (findNumericCode w = none → findHyphenCode w = none →
       ∀ c, find p.codePattern w = some c →
         extractPerplexityCode find p text = c) ∧
      (findNumericCode w = none → findHyphenCode w = none →
       find p.codePattern w = none →
         extractPerplexityCode find p text = NotFoundCode)) := by
  refine ⟨?_, ?_, ?_, ?_, ?_⟩
  · intro m i h
    exact listIndexOfSub_first m.toList (goToLower text).toList i h
  · intro i h
    unfold findMarkerWindow perplexityMarkers
    simp only [markerLoop, h]
    rfl
  · intro h1 j h2
    unfold findMarkerWindow perplexityMarkers
    simp only [markerLoop, h1, h2]
    rfl
  · intro h1 h2
    unfold extractPerplexityCode findMarkerWindow perplexityMarkers
    simp only [markerLoop, h1, h2]
  · intro w hw
    refine ⟨?_, ?_, ?_, ?_⟩
    · intro c hc
      simp only [extractPerplexityCode, hw, hc]
    · intro hn c hc
      simp only [extractPerplexityCode, hw, hn, hc]
    · intro hn hh c hc
      simp only [extractPerplexityCode, hw, hn, hh, hc]
    · intro hn hh hf
      simp only [extractPerplexityCode, hw, hn, hh, hf]

/-- Witness for C6 (amended): with only `"directly:"` present, the window
starts after it; the numeric pattern has no match there, so the
hyphenated-token pattern supplies the result. -/
theorem extractPerplexityCode_priority_order_witness :
    extractPerplexityCode (fun _ _ => none)
        ⟨"perplexity", ⟨"", [], "", "", ""⟩, ResolvedPattern.perplexityDefault⟩
        "directly: abc aw9s5-y1zoy" = "aw9s5-y1zoy" := by
  have h := extractPerplexityCode_priority_order (fun _ _ => none)
    ⟨"perplexity", ⟨"", [], "", "", ""⟩, ResolvedPattern.perplexityDefault⟩
    "directly: abc aw9s5-y1zoy"
  have hwin := h.2.1 0 (by decide)
  exact (h.2.2.2.2 _ hwin).2.1 (by decide) "aw9s5-y1zoy" (by decide)

/-! ## Claim C7 -/

/-- C7 counterexample: header stripping does not cut at the first blank line.
In `"x\r\n\r\nA\n\nB"` the first blank-line delimiter is the CRLF-CRLF at
index 1 (before the LF-LF at index 6), so cutting at the first blank line
would leave `"A\n\nB"`; but extraction for a non-cloudflare processor matches
against `"B"`, because the code looks for an LF-LF delimiter first and falls
back to CRLF-CRLF only when no LF-LF exists anywhere. -/
theorem extractCode_strip_first_blank_cex :
    extractCode (fun _ body => some body)
        ⟨"other", ⟨"", [], "", "", ""⟩, ResolvedPattern.genericDefault⟩
        "x\r\n\r\nA\n\nB" = "B" ∧
    goIndex "x\r\n\r\nA\n\nB" "\r\n\r\n" = some 1 ∧
    goIndex "x\r\n\r\nA\n\nB" "\n\n" = some 6 ∧
    (1 : Nat) + 4 < 6 ∧
    String.mk (("x\r\n\r\nA\n\nB" : String).toList.drop (1 + 4)) = "A\n\nB" ∧
    ("B" : String) ≠ "A\n\nB" := by
  refine ⟨by decide, by decide, by decide, by decide, by decide, by decide⟩

/-- C7 (amended): for a non-cloudflare processor the body is stripped before
matching and for the cloudflare processor it is not; stripping cuts after the
first LF-LF delimiter whenever one occurs anywhere in the text, cuts after the
first CRLF-CRLF delimiter only when no LF-LF occurs, and leaves the text
unchanged when neither occurs. -/
theorem extractCode_strip_spec (find : ResolvedPattern → String → Option String)
    (p : GenericEmailProcessor) (text : String) :
    (∀ i, goIndex text "\n\n" = some i →
       stripMIMEHeaders text = String.mk (text.toList.drop (i + 2))) ∧
    (goIndex text "\n\n" = none →
     ∀ j, goIndex text "\r\n\r\n" = some j →
       stripMIMEHeaders text = String.mk (text.toList.drop (j + 4))) ∧
    (goIndex text "\n\n" = none → goIndex text "\r\n\r\n" = none →
       stripMIMEHeaders text = text) ∧
    (goToLower p.name ≠ "cloudflare" → goToLower p.name ≠ "perplexity" →
       extractCode find p text
         = matchResult find p.codePattern (stripMIMEHeaders text)) ∧
    (goToLower p.name = "cloudflare" →
       extractCode find p text = matchResult find p.codePattern text) ∧
    (goToLower p.name = "perplexity" →
       extractCode find p text
         = extractPerplexityCode find p (stripMIMEHeaders text)) := by
  refine ⟨?_, ?_, ?_, ?_, ?_, ?_⟩
  · intro i h
    unfold stripMIMEHeaders
    rw [h]
  · intro h1 j h2
    unfold stripMIMEHeaders
    rw [h1, h2]
  · intro h1 h2
    unfold stripMIMEHeaders
    rw [h1, h2]
  · intro hc hper
    unfold extractCode
    rw [if_neg hc, if_neg hper]
  · intro hc
    have hper : goToLower p.name ≠ "perplexity" := by
      rw [hc]
      decide
    unfold extractCode
    rw [if_pos hc, if_neg hper]
  · intro hper
    have hc : goToLower p.name ≠ "cloudflare" := by
      rw [hper]
      decide
    unfold extractCode
    rw [if_neg hc, if_pos hper]

/-- Witness for C7 (amended): a non-cloudflare processor matches against the
text after the first LF-LF blank line. -/
theorem extractCode_strip_spec_witness :
    extractCode (fun _ body => some body)
        ⟨"other", ⟨"", [], "", "", ""⟩, ResolvedPattern.genericDefault⟩
        "To: x\n\nYour code" = "Your code" ∧
    stripMIMEHeaders "To: x\n\nYour code" = "Your code" := by
  have h := extractCode_strip_spec (fun _ body => some body)
    ⟨"other", ⟨"", [], "", "", ""⟩, ResolvedPattern.genericDefault⟩
    "To: x\n\nYour code"
  have hstrip : stripMIMEHeaders "To: x\n\nYour code" = "Your code" :=
    (h.1 5 (by decide)).trans (by decide)
  refine ⟨?_, hstrip⟩
  have hext := h.2.2.2.1 (by decide) (by decide)
  rw [hext, hstrip]
  rfl

/-! ## Message dispatch (imap.go lines 183-239) -/

/-- A processor as the ingestion loop sees it (the `models.EmailProcessor`
interface): the match predicate, the success or failure of its `Process` call
(the network effect is abstracted to its outcome), the optional `GetName`
capability probed by `handlePostProcessing`, and the `GetSender` filter. -/
structure EmailProcessorSpec where
  shouldProcess : Email → Bool
  processOk : Email → Bool
  getName? : Option String
  sender : String

/-- `IMAPClient.handlePostProcessing`: whether the message is marked read
after a successful `Process` (a processor with no name is not marked; a named
processor is marked when its lowercased name is `"perplexity"` or
`"cloudflare"`). -/
def handlePostProcessing (p : EmailProcessorSpec) : Bool :=
  match p.getName? with
  | none => false
  | some n =>
    let name := goToLower n
    name = "perplexity" || name = "cloudflare"

/-- The observable effects of one `IMAPClient.processMessage` call:
how many processors had `ShouldProcess` evaluated, the index of the processor
whose `Process` ran (if any), whether that call succeeded, and whether a
seen-flag store was issued. -/
structure DispatchResult where
  consulted : Nat
  processedBy : Option Nat
  processSucceeded : Bool
  markedRead : Bool
deriving Repr, DecidableEq

/-- `IMAPClient.processMessage`: first matching processor processes; on
`Process` error the loop returns with no flag change; on success
`handlePostProcessing` decides the seen flag; an unmatched message is left
untouched. -/
def processMessage : List EmailProcessorSpec → Email → DispatchResult
  | [], _ => ⟨0, none, false, false⟩
  | p :: rest, email =>
    if p.shouldProcess email then
      if p.processOk email then
        ⟨1, some 0, true, handlePostProcessing p⟩
      else
        ⟨1, some 0, false, false⟩
    else
      let r := processMessage rest email
      ⟨r.consulted + 1, r.processedBy.map (fun i => i + 1),
       r.processSucceeded, r.markedRead⟩

/-! ## Claim C2 -/

/-- C2: dispatch is first-match.  If index `i` holds the earliest processor
whose `ShouldProcess` is true, exactly that processor's `Process` runs and
only the first `i + 1` processors are consulted; a message matching no
processor is not processed and no flag mutation is issued. -/
theorem processMessage_first_match (procs : List EmailProcessorSpec)
    (email : Email) :
    (∀ i, ∀ hi : i < procs.length,
       (procs.get ⟨i, hi⟩).shouldProcess email = true →
       (∀ j, ∀ hj : j < procs.length, j < i →
          (procs.get ⟨j, hj⟩).shouldProcess email = false) →
       (processMessage procs email).processedBy = some i ∧
       (processMessage procs email).consulted = i + 1) ∧
    ((∀ j, ∀ hj : j < procs.length,
        (procs.get ⟨j, hj⟩).shouldProcess email = false) →
       (processMessage procs email).processedBy = none ∧
       (processMessage procs email).markedRead = false ∧
       (processMessage procs email).consulted = procs.length) := by
  induction procs with
  | nil =>
    refine ⟨fun i hi => absurd hi (by simp), fun _ => ⟨rfl, rfl, rfl⟩⟩
  | cons p rest ih =>
    constructor
    · intro i hi hmatch hleast
      cases i with
      | zero =>
        simp only [List.get] at hmatch
        simp only [processMessage, hmatch, if_true]
        cases hok : p.processOk email <;> exact ⟨rfl, rfl⟩
      | succ i' =>
        have hp : p.shouldProcess email = false := by
          have := hleast 0 (by simp) (by omega)
          simpa using this
        have hi' : i' < rest.length := by
          simpa using hi
        have hmatch' : (rest.get ⟨i', hi'⟩).shouldProcess email = true := by
          simpa using hmatch
        have hleast' : ∀ j, ∀ hj : j < rest.length, j < i' →
            (rest.get ⟨j, hj⟩).shouldProcess email = false := by
          intro j hj hlt
          have := hleast (j + 1) (by simpa using Nat.succ_lt_succ hj)
            (by omega)
          simpa using this
        obtain ⟨hby, hcons⟩ := ih.1 i' hi' hmatch' hleast'
        simp only [processMessage, hp, Bool.false_eq_true, if_false]
        refine ⟨?_, ?_⟩
        · rw [hby]
          rfl
        · rw [hcons]
    · intro hall
      have hp : p.shouldProcess email = false := by
        have := hall 0 (by simp)
        simpa using this
      have hall' : ∀ j, ∀ hj : j < rest.length,
          (rest.get ⟨j, hj⟩).shouldProcess email = false := by
        intro j hj
        have := hall (j + 1) (by simpa using Nat.succ_lt_succ hj)
        simpa using this
      obtain ⟨hby, hmark, hcons⟩ := ih.2 hall'
      simp only [processMessage, hp, Bool.false_eq_true, if_false]
      refine ⟨?_, hmark, ?_⟩
      · rw [hby]
        rfl
      · rw [hcons]
        simp [List.length]

/-- Witness for C2: with the second and third of three processors matching,
only the second processes (two processors consulted), and a message matching
none is untouched. -/
theorem processMessage_first_match_witness :
    (processMessage
        [⟨fun e => goContains e.Subject "alpha", fun _ => true, some "A", "a@x"⟩,
         ⟨fun e => goContains e.Subject "beta", fun _ => true, some "B", "b@x"⟩,
         ⟨fun e => goContains e.Subject "beta", fun _ => true, some "C", "c@x"⟩]
        ⟨"1", "beta news", "x@y", ""⟩).processedBy = some 1 ∧
    (processMessage
        [⟨fun e => goContains e.Subject "alpha", fun _ => true, some "A", "a@x"⟩,
         ⟨fun e => goContains e.Subject "beta", fun _ => true, some "B", "b@x"⟩,
         ⟨fun e => goContains e.Subject "beta", fun _ => true, some "C", "c@x"⟩]
        ⟨"1", "beta news", "x@y", ""⟩).consulted = 2 ∧
    (processMessage
        [⟨fun e => goContains e.Subject "alpha", fun _ => true, some "A", "a@x"⟩,
         ⟨fun e => goContains e.Subject "beta", fun _ => true, some "B", "b@x"⟩,
         ⟨fun e => goContains e.Subject "beta", fun _ => true, some "C", "c@x"⟩]
        ⟨"2", "gamma", "x@y", ""⟩).processedBy = none ∧
    (processMessage
        [⟨fun e => goContains e.Subject "alpha", fun _ => true, some "A", "a@x"⟩,
         ⟨fun e => goContains e.Subject "beta", fun _ => true, some "B", "b@x"⟩,
         ⟨fun e => goContains e.Subject "beta", fun _ => true, some "C", "c@x"⟩]
        ⟨"2", "gamma", "x@y", ""⟩).markedRead = false := by
  have h1 := processMessage_first_match
    [⟨fun e => goContains e.Subject "alpha", fun _ => true, some "A", "a@x"⟩,
     ⟨fun e => goContains e.Subject "beta", fun _ => true, some "B", "b@x"⟩,
     ⟨fun e => goContains e.Subject "beta", fun _ => true, some "C", "c@x"⟩]
    ⟨"1", "beta news", "x@y", ""⟩
  have h2 := processMessage_first_match
    [⟨fun e => goContains e.Subject "alpha", fun _ => true, some "A", "a@x"⟩,
     ⟨fun e => goContains e.Subject "beta", fun _ => true, some "B", "b@x"⟩,
     ⟨fun e => goContains e.Subject "beta", fun _ => true, some "C", "c@x"⟩]
    ⟨"2", "gamma", "x@y", ""⟩
  obtain ⟨hby, hcons⟩ := h1.1 1 (by decide) (by decide) (by decide)
  obtain ⟨hnone, hmark, -⟩ := h2.2 (by decide)
  exact ⟨hby, hcons, hnone, hmark⟩

/-! ## Claim C3 -/

theorem handlePostProcessing_iff (p : EmailProcessorSpec) :
    handlePostProcessing p = true ↔
      ∃ n, p.getName? = some n ∧
        (goToLower n = "perplexity" ∨ goToLower n = "cloudflare") := by
  unfold handlePostProcessing
  cases hn : p.getName? with
  | none => simp
  | some n => simp [Bool.or_eq_true, decide_eq_true_eq]

/-- C3: the seen flag is added exactly when the handling processor's `Process`
succeeded and its name, lowercased, is `"perplexity"` or `"cloudflare"`; a
failed `Process`, a successful processor outside the allowlist, and an
unmatched message all leave the flag untouched. -/
theorem processMessage_markedRead_iff (procs : List EmailProcessorSpec)
    (email : Email) :
    (processMessage procs email).markedRead = true ↔
      ∃ i q n, procs[i]? = some q ∧
        (processMessage procs email).processedBy = some i ∧
        (processMessage procs email).processSucceeded = true ∧
        q.getName? = some n ∧
        (goToLower n = "perplexity" ∨ goToLower n = "cloudflare") := by
  induction procs with
  | nil => simp [processMessage]
  | cons p rest ih =>
    cases hs : p.shouldProcess email with
    | true =>
      cases hok : p.processOk email with
      | true =>
        have hred : processMessage (p :: rest) email
            = ⟨1, some 0, true, handlePostProcessing p⟩ := by
          simp [processMessage, hs, hok]
        rw [hred]
        constructor
        · intro hm
          obtain ⟨n, hn, hall⟩ := (handlePostProcessing_iff p).mp hm
          exact ⟨0, p, n, by simp, rfl, rfl, hn, hall⟩
        · rintro ⟨i, q, n, hq, hi, -, hn, hall⟩
          have hi0 : i = 0 := by
            cases hi
            rfl
          subst hi0
          have hqp : p = q := by
            simpa using hq
          rw [hqp]
          exact (handlePostProcessing_iff q).mpr ⟨n, hn, hall⟩
      | false =>
        have hred : processMessage (p :: rest) email
            = ⟨1, some 0, false, false⟩ := by
          simp [processMessage, hs, hok]
        rw [hred]
        simp
    | false =>
      have hmk : (processMessage (p :: rest) email).markedRead
          = (processMessage rest email).markedRead := by
        simp [processMessage, hs]
      have hby : (processMessage (p :: rest) email).processedBy
          = (processMessage rest email).processedBy.map (fun i => i + 1) := by
        simp [processMessage, hs]
      have hsc : (processMessage (p :: rest) email).processSucceeded
          = (processMessage rest email).processSucceeded := by
        simp [processMessage, hs]
      rw [hmk, hby, hsc, ih]
      constructor
      · rintro ⟨i', q, n, hq, hb, hsucc, hn, hall⟩
        refine ⟨i' + 1, q, n, by simpa using hq, ?_, hsucc, hn, hall⟩
        rw [hb]
        rfl
      · rintro ⟨i, q, n, hq, hb, hsucc, hn, hall⟩
        cases hr : (processMessage rest email).processedBy with
        | none =>
          rw [hr] at hb
          cases hb
        | some i' =>
          rw [hr] at hb
          have hii : i' + 1 = i := by
            cases hb
            rfl
          subst hii
          refine ⟨i', q, n, by simpa using hq, rfl, hsucc, hn, hall⟩

/-- Witness for C3: an allowlisted processor (name `"Perplexity"`) that
succeeds gets the message marked read, while a successful processor outside
the allowlist (name `"torrent"`) leaves it unread. -/
theorem processMessage_markedRead_iff_witness :
    (processMessage
        [⟨fun _ => true, fun _ => true, some "Perplexity", "p@x"⟩]
        ⟨"1", "s", "f", ""⟩).markedRead = true ∧
    (processMessage
        [⟨fun _ => true, fun _ => true, some "torrent", "t@x"⟩]
        ⟨"1", "s", "f", ""⟩).markedRead = false := by
  constructor
  · exact (processMessage_markedRead_iff
      [⟨fun _ => true, fun _ => true, some "Perplexity", "p@x"⟩]
      ⟨"1", "s", "f", ""⟩).mpr
      ⟨0, ⟨fun _ => true, fun _ => true, some "Perplexity", "p@x"⟩, "Perplexity",
        rfl, rfl, rfl, rfl, Or.inl (by decide)⟩
  · cases hm : (processMessage
        [⟨fun _ => true, fun _ => true, some "torrent", "t@x"⟩]
        ⟨"1", "s", "f", ""⟩).markedRead with
    | false => rfl
    | true =>
      obtain ⟨i, q, n, hq, -, -, hn, hall⟩ := (processMessage_markedRead_iff
        [⟨fun _ => true, fun _ => true, some "torrent", "t@x"⟩]
        ⟨"1", "s", "f", ""⟩).mp hm
      cases i with
      | zero =>
        have hqp : (⟨fun _ => true, fun _ => true, some "torrent", "t@x"⟩
            : EmailProcessorSpec) = q := by
          simpa using hq
        rw [← hqp] at hn
        have hnt : n = "torrent" := by
          cases hn
          rfl
        subst hnt
        rcases hall with hall | hall <;> exact absurd hall (by decide)
      | succ i' =>
        simp at hq

/-! ## Unread search (imap.go lines 53-77 and 112-155) -/

/-- The sender collection of `checkEmails`: the `GetSender()` of each
processor, skipping empty strings, in processor order. -/
def collectSenders : List EmailProcessorSpec → List String
  | [] => []
  | p :: rest =>
    if p.sender = "" then collectSenders rest
    else p.sender :: collectSenders rest

/-- Insertion of a search result into the `uniqueIDs` accumulation (a set in
the source; here a duplicate-free list in first-seen order). -/
def addUnique (acc : List Nat) (ids : List Nat) : List Nat :=
  ids.foldl (fun a id => if a.contains id then a else a ++ [id]) acc

/-- The per-sender loop of `searchUnreadEmails`: one search per listed sender
(a failed search is logged and skipped), accumulating the deduplicated union;
the second component counts the searches issued. -/
def searchBySenders (search : Option String → Except Unit (List Nat)) :
    List String → List Nat → List Nat × Nat
  | [], acc => (acc, 0)
  | s :: rest, acc =>
    let acc2 := match search (some s) with
      | Except.ok ids => addUnique acc ids
      | Except.error _ => acc
    let r := searchBySenders search rest acc2
    (r.1, r.2 + 1)

/-- `IMAPClient.searchUnreadEmails`: with no senders, a single unfiltered
unread search whose result (or error) is returned unchanged; otherwise the
per-sender loop.  `search none` stands for the unfiltered unread search and
`search (some s)` for the unread search filtered by header `From: s`. -/
def searchUnreadEmails (search : Option String → Except Unit (List Nat))
    (senders : List String) : Except Unit (List Nat) × Nat :=
  if senders.isEmpty then
    (search none, 1)
  else
    let r := searchBySenders search senders []
    (Except.ok r.1, r.2)

/-- The search phase of `IMAPClient.checkEmails`: collect the processors'
sender filters, then search. -/
def checkEmailsSearch (search : Option String → Except Unit (List Nat))
    (procs : List EmailProcessorSpec) : Except Unit (List Nat) × Nat :=
  searchUnreadEmails search (collectSenders procs)

/-! ## Claim C8 -/

/-- C8 counterexample: two processors exposing the same non-empty sender
filter cause two searches, not one per distinct sender filter. -/
theorem checkEmailsSearch_distinct_cex :
    (checkEmailsSearch (fun _ => Except.ok [])
        [⟨fun _ => false, fun _ => false, none, "a@x"⟩,
         ⟨fun _ => false, fun _ => false, none, "a@x"⟩]).2 = 2 ∧
    (collectSenders
        [⟨fun _ => false, fun _ => false, none, "a@x"⟩,
         ⟨fun _ => false, fun _ => false, none, "a@x"⟩]).dedup = ["a@x"] := by
  exact ⟨rfl, by simp [collectSenders]⟩

theorem addUnique_mem (x : Nat) :
    ∀ (ids acc : List Nat), x ∈ addUnique acc ids ↔ x ∈ acc ∨ x ∈ ids := by
  intro ids
  induction ids with
  | nil => intro acc; simp [addUnique]
  | cons i rest ih =>
    intro acc
    show x ∈ addUnique (if acc.contains i then acc else acc ++ [i]) rest ↔ _
    rw [ih]
    by_cases hc : acc.contains i
    · rw [if_pos hc]
      have hi : i ∈ acc := by
        simpa using hc
      constructor
      · rintro (h | h)
        · exact Or.inl h
        · exact Or.inr (List.mem_cons_of_mem i h)
      · rintro (h | h)
        · exact Or.inl h
        · rcases List.mem_cons.mp h with rfl | h
          · exact Or.inl hi
          · exact Or.inr h
    · rw [if_neg hc]
      simp only [List.mem_append, List.mem_singleton, List.mem_cons]
      tauto

theorem addUnique_nodup (ids : List Nat) :
    ∀ acc : List Nat, acc.Nodup → (addUnique acc ids).Nodup := by
  induction ids with
  | nil => intro acc h; exact h
  | cons i rest ih =>
    intro acc h
    show (addUnique (if acc.contains i then acc else acc ++ [i]) rest).Nodup
    by_cases hc : acc.contains i
    · rw [if_pos hc]
      exact ih acc h
    · rw [if_neg hc]
      refine ih (acc ++ [i]) ?_
      rw [List.nodup_append]
      refine ⟨h, List.nodup_singleton i, ?_⟩
      intro a ha hmem
      have : a = i := by simpa using hmem
      subst this
      exact absurd (by simpa using ha) (by simpa using hc)

theorem searchBySenders_count (search : Option String → Except Unit (List Nat)) :
    ∀ (senders : List String) (acc : List Nat),
      (searchBySenders search senders acc).2 = senders.length := by
  intro senders
  induction senders with
  | nil => intro acc; rfl
  | cons s rest ih =>
    intro acc
    show (searchBySenders search rest _).2 + 1 = rest.length + 1
    rw [ih]

theorem searchBySenders_mem (search : Option String → Except Unit (List Nat))
    (x : Nat) :
    ∀ (senders : List String) (acc : List Nat),
      x ∈ (searchBySenders search senders acc).1 ↔
        x ∈ acc ∨ ∃ s ∈ senders, ∃ ids,
          search (some s) = Except.ok ids ∧ x ∈ ids := by
  intro senders
  induction senders with
  | nil => intro acc; simp [searchBySenders]
  | cons s rest ih =>
    intro acc
    show x ∈ (searchBySenders search rest _).1 ↔ _
    rw [ih]
    cases hs : search (some s) with
    | ok ids =>
      rw [addUnique_mem]
      constructor
      · rintro ((h | h) | ⟨t, ht, tids, hts, hx⟩)
        · exact Or.inl h
        · exact Or.inr ⟨s, List.mem_cons_self s rest, ids, hs, h⟩
        · exact Or.inr ⟨t, List.mem_cons_of_mem s ht, tids, hts, hx⟩
      · rintro (h | ⟨t, ht, tids, hts, hx⟩)
        · exact Or.inl (Or.inl h)
        · rcases List.mem_cons.mp ht with rfl | ht
          · rw [hs] at hts
            cases hts
            exact Or.inl (Or.inr hx)
          · exact Or.inr ⟨t, ht, tids, hts, hx⟩
    | error e =>
      constructor
      · rintro (h | ⟨t, ht, tids, hts, hx⟩)
        · exact Or.inl h
        · exact Or.inr ⟨t, List.mem_cons_of_mem s ht, tids, hts, hx⟩
      · rintro (h | ⟨t, ht, tids, hts, hx⟩)
        · exact Or.inl h
        · rcases List.mem_cons.mp ht with rfl | ht
          · rw [hs] at hts
            cases hts
          · exact Or.inr ⟨t, ht, tids, hts, hx⟩

theorem searchBySenders_nodup (search : Option String → Except Unit (List Nat)) :
    ∀ (senders : List String) (acc : List Nat), acc.Nodup →
      (searchBySenders search senders acc).1.Nodup := by
  intro senders
  induction senders with
  | nil => intro acc h; exact h
  | cons s rest ih =>
    intro acc h
    show (searchBySenders search rest _).1.Nodup
    cases hs : search (some s) with
    | ok ids => exact ih _ (addUnique_nodup ids acc h)
    | error e => exact ih _ h

/-- C8 (amended): when no processor exposes a non-empty sender filter the
tick issues exactly one unfiltered unread search and returns its outcome
unchanged; when at least one non-empty sender filter exists the tick issues
one unread search per collected sender-filter occurrence (duplicate filters
issue duplicate searches), and returns the deduplicated union of the
successful searches' identifier sets. -/
theorem checkEmailsSearch_spec (search : Option String → Except Unit (List Nat))
    (procs : List EmailProcessorSpec) :
    (collectSenders procs = [] →
       checkEmailsSearch search procs = (search none, 1)) ∧
    (collectSenders procs ≠ [] →
       (checkEmailsSearch search procs).2 = (collectSenders procs).length ∧
       ∃ res, (checkEmailsSearch search procs).1 = Except.ok res ∧
         res.Nodup ∧
         ∀ x, x ∈ res ↔ ∃ s ∈ collectSenders procs, ∃ ids,
           search (some s) = Except.ok ids ∧ x ∈ ids) := by
  constructor
  · intro h
    unfold checkEmailsSearch searchUnreadEmails
    rw [h]
    rfl
  · intro h
    have hne : (collectSenders procs).isEmpty = false := by
      cases hcs : collectSenders procs with
      | nil => exact absurd hcs h
      | cons a l => rfl
    unfold checkEmailsSearch searchUnreadEmails
    rw [hne]
    simp only [Bool.false_eq_true, if_false]
    refine ⟨searchBySenders_count search _ _, _, rfl, ?_, ?_⟩
    · exact searchBySenders_nodup search _ [] List.nodup_nil
    · intro x
      rw [searchBySenders_mem]
      simp

/-- Witness for C8 (amended): three sender filters (one duplicated) issue
three searches and return the deduplicated union of the results. -/
theorem checkEmailsSearch_spec_witness :
    (checkEmailsSearch
        (fun o => match o with
          | some "a@x" => Except.ok [1, 2]
          | some "b@x" => Except.ok [2, 3]
          | _ => Except.ok [])
        [⟨fun _ => false, fun _ => false, none, "a@x"⟩,
         ⟨fun _ => false, fun _ => false, none, "b@x"⟩,
         ⟨fun _ => false, fun _ => false, none, "a@x"⟩]).2 = 3 ∧
    (∃ res, (checkEmailsSearch
        (fun o => match o with
          | some "a@x" => Except.ok [1, 2]
          | some "b@x" => Except.ok [2, 3]
          | _ => Except.ok [])
        [⟨fun _ => false, fun _ => false, none, "a@x"⟩,
         ⟨fun _ => false, fun _ => false, none, "b@x"⟩,
         ⟨fun _ => false, fun _ => false, none, "a@x"⟩]).1 = Except.ok res ∧
      res.Nodup ∧ (1 ∈ res ∧ 2 ∈ res ∧ 3 ∈ res)) := by
  have h := checkEmailsSearch_spec
    (fun o => match o with
      | some "a@x" => Except.ok [1, 2]
      | some "b@x" => Except.ok [2, 3]
      | _ => Except.ok [])
    [⟨fun _ => false, fun _ => false, none, "a@x"⟩,
     ⟨fun _ => false, fun _ => false, none, "b@x"⟩,
     ⟨fun _ => false, fun _ => false, none, "a@x"⟩]
  obtain ⟨hcount, res, hres, hnd, hmem⟩ := h.2 (by simp [collectSenders])
  refine ⟨hcount.trans (by simp [collectSenders]), res, hres, hnd, ?_, ?_, ?_⟩
  · exact (hmem 1).mpr ⟨"a@x", by simp [collectSenders], [1, 2], rfl, by simp⟩
  · exact (hmem 2).mpr ⟨"a@x", by simp [collectSenders], [1, 2], rfl, by simp⟩
  · exact (hmem 3).mpr ⟨"b@x", by simp [collectSenders], [2, 3], rfl, by simp⟩

/-! ## Telegram delivery with bounded retry (client.go lines 49-93) -/

/-- The backoff before retry number `attempt + 1`:
`1 << (attempt - 1)` seconds. -/
def telegramBackoff (attempt : Nat) : Nat := 1 <<< (attempt - 1)

/-- The observable effects of one `Client.SendMessage` call: the returned
value, how many `bot.Send` attempts were made, and the sleeps (in seconds)
performed between consecutive failed attempts. -/
structure SendTrace where
  result : Except String Unit
  attempts : Nat
  sleeps : List Nat
deriving Repr

/-- The final error message of `SendMessage`, wrapping the last attempt's
error. -/
def wrapSendFailure (maxRetries : Nat) (lastErr : String) : String :=
  "failed to send message after " ++ toString maxRetries ++ " attempts: "
    ++ lastErr

/-- The retry loop of `Client.SendMessage`.  `sendErr n` is the outcome of
attempt number `n` (`none` meaning success); `remaining` counts the attempts
still allowed, starting at `maxRetries`. -/
def sendAttemptLoop (sendErr : Nat → Option String) (maxRetries : Nat) :
    Nat → Nat → String → SendTrace
  | 0, _, lastErr => ⟨Except.error (wrapSendFailure maxRetries lastErr), 0, []⟩
  | remaining + 1, attempt, _ =>
    match sendErr attempt with
    | none => ⟨Except.ok (), 1, []⟩
    | some err =>
      if remaining = 0 then
        ⟨Except.error (wrapSendFailure maxRetries err), 1, []⟩
      else
        let rest := sendAttemptLoop sendErr maxRetries remaining (attempt + 1) err
        ⟨rest.result, rest.attempts + 1, telegramBackoff attempt :: rest.sleeps⟩

/-- `Client.SendMessage`: an unparsable chat id returns an error with no
delivery attempt; otherwise up to `maxRetries = 3` attempts. -/
def SendMessage (chatIDValid : Bool) (sendErr : Nat → Option String) :
    SendTrace :=
  if !chatIDValid then ⟨Except.error "invalid chat ID", 0, []⟩
  else sendAttemptLoop sendErr 3 3 1 ""

/-! ## Claim C9 -/

/-- C9: `SendMessage` makes at most 3 delivery attempts; it returns success
immediately at the first successful attempt; the sleeps between consecutive
failed attempts grow exponentially (1 second, then 2 seconds); and an error
is returned only when all 3 attempts failed, wrapping the last attempt's
error. -/
theorem sendMessage_retry (chatIDValid : Bool)
    (sendErr : Nat → Option String) :
    (SendMessage chatIDValid sendErr).attempts ≤ 3 ∧
    (chatIDValid = true → sendErr 1 = none →
       SendMessage chatIDValid sendErr = ⟨Except.ok (), 1, []⟩) ∧
    (∀ e1, chatIDValid = true → sendErr 1 = some e1 → sendErr 2 = none →
       SendMessage chatIDValid sendErr = ⟨Except.ok (), 2, [1]⟩) ∧
    (∀ e1 e2, chatIDValid = true → sendErr 1 = some e1 → sendErr 2 = some e2 →
       sendErr 3 = none →
       SendMessage chatIDValid sendErr = ⟨Except.ok (), 3, [1, 2]⟩) ∧
    (∀ e1 e2 e3, chatIDValid = true → sendErr 1 = some e1 →
       sendErr 2 = some e2 → sendErr 3 = some e3 →
       SendMessage chatIDValid sendErr
         = ⟨Except.error (wrapSendFailure 3 e3), 3, [1, 2]⟩) := by
  refine ⟨?_, ?_, ?_, ?_, ?_⟩
  · cases chatIDValid with
    | false => exact Nat.zero_le 3
    | true =>
      show (sendAttemptLoop sendErr 3 3 1 "").attempts ≤ 3
      cases h1 : sendErr 1 with
      | none => simp [sendAttemptLoop, h1]
      | some e1 =>
        cases h2 : sendErr 2 with
        | none => simp [sendAttemptLoop, h1, h2]
        | some e2 =>
          cases h3 : sendErr 3 with
          | none => simp [sendAttemptLoop, h1, h2, h3]
          | some e3 => simp [sendAttemptLoop, h1, h2, h3]
  · intro hv h1
    subst hv
    show sendAttemptLoop sendErr 3 3 1 "" = _
    simp [sendAttemptLoop, h1]
  · intro e1 hv h1 h2
    subst hv
    show sendAttemptLoop sendErr 3 3 1 "" = _
    simp [sendAttemptLoop, h1, h2, telegramBackoff]
  · intro e1 e2 hv h1 h2 h3
    subst hv
    show sendAttemptLoop sendErr 3 3 1 "" = _
    simp [sendAttemptLoop, h1, h2, h3, telegramBackoff]
  · intro e1 e2 e3 hv h1 h2 h3
    subst hv
    show sendAttemptLoop sendErr 3 3 1 "" = _
    simp [sendAttemptLoop, h1, h2, h3, telegramBackoff]

/-- Witness for C9: when the first two attempts fail and the third succeeds,
the call succeeds after 3 attempts with sleeps of 1 and 2 seconds. -/
theorem sendMessage_retry_witness :
    SendMessage true (fun n => if n < 3 then some "timeout" else none)
      = ⟨Except.ok (), 3, [1, 2]⟩ :=
  (sendMessage_retry true (fun n => if n < 3 then some "timeout" else none)).2.2.2.1
    "timeout" "timeout" rfl rfl rfl rfl
